import Mathlib

/-!
Verification of the lossy-cast gadgets for the `Scalar` source type,
embedded from `src/circuit/types/src/cast_lossy/scalar.rs`.

A circuit value carries a mode (Constant / Public / Private) and, for a
scalar, a canonical integer value below the scalar-field modulus.  The
lossy casts under verification are:

* `Scalar -> Boolean`   : `self.to_bits_be().pop()` — `Vec::pop` removes and
  returns the LAST element of the big-endian bit vector, i.e. the least
  significant bit; an empty vector triggers `E::halt`.
* `Scalar -> Integer<W>`: `Integer::from_bits_le(&self.to_bits_le()[0..W])` —
  recompose the `W` low-order bits of the little-endian decomposition.
* `Scalar -> Field`, `Scalar -> Group`, `Scalar -> Address`, and
  `Scalar -> Scalar`: delegate to the exact cast `self.cast()`.

The bit decomposition, recomposition, exact casts and constraint counting
live outside the file under verification (the `Environment` and the other
type gadgets); they are modelled from the spec where needed, and each such
definition says so in its doc comment.
-/

set_option maxRecDepth 8000

/-- Mode of a circuit value: compile-time constant, public witness, or
private witness. -/
inductive Mode where
  | Constant : Mode
  | Public : Mode
  | Private : Mode
deriving DecidableEq

/-- Modelled from the spec: the scalar-field modulus of the reference
system (the ≈251-bit scalar field of the embedded curve); its exact value
is not needed by the theorems beyond being below `2 ^ 251`. -/
def scalarModulus : Nat :=
  2111115437357092606062206234695386632838870926408408195193685246394721360383

/-- Modelled from the spec: the base-field modulus of the reference system
(the 377-bit base field); the scalar-field order does not exceed it. -/
def fieldModulus : Nat :=
  258664426012969094010652733694893533536393512754914660539884262666720468348340822774968888139573360124440321458177

/-- Modelled from the spec: the canonical bit-width of the scalar domain
(251 bits in the reference system). -/
def scalarSizeInBits : Nat := 251

/-- Modelled from the spec: the little-endian bit decomposition of a value
to a fixed length — bit `i` of the output is bit `i` of the value. -/
def toBitsLeN : Nat → Nat → List Bool
  | 0, _ => []
  | n + 1, v => (v % 2 == 1) :: toBitsLeN n (v / 2)

/-- `to_bits_le` of a scalar: its `scalarSizeInBits` little-endian bits. -/
def scalarToBitsLe (v : Nat) : List Bool := toBitsLeN scalarSizeInBits v

/-- `to_bits_be` of a scalar: the big-endian view, the reverse of the
little-endian decomposition. -/
def scalarToBitsBe (v : Nat) : List Bool := (scalarToBitsLe v).reverse

/-- Modelled from the spec: recomposition of a little-endian bit sequence
into the value `Σ bit_i * 2 ^ i`. -/
def fromBitsLe : List Bool → Nat
  | [] => 0
  | b :: bs => (if b then 1 else 0) + 2 * fromBitsLe bs

/-- Result of a circuit computation: either a value, or a fatal synthesis
halt with a diagnostic message (the `E::halt` primitive, which aborts the
whole circuit build and is never a recoverable error value). -/
inductive HaltOr (α : Type) where
  | halt (msg : String) : HaltOr α
  | ok (a : α) : HaltOr α
deriving DecidableEq

/-- The body of `CastLossy<Boolean> for Scalar`: pop the last element of
the big-endian bit vector (the least significant bit), halting when the
vector cannot supply it. -/
def booleanFromPoppedBit (bits : List Bool) : HaltOr Bool :=
  match bits.getLast? with
  | some bit => HaltOr.ok bit
  | none => HaltOr.halt "Failed to retrieve the LSB from the field element."

/-- `CastLossy<Boolean> for Scalar`: `self.to_bits_be().pop()` with a halt
on the empty sequence.  The mode tags the operand; the ejected value does
not depend on it. -/
def castLossyScalarToBoolean (mode : Mode) (v : Nat) : HaltOr Bool :=
  booleanFromPoppedBit (scalarToBitsBe v)

/-- `CastLossy<Integer<W>> for Scalar`: recompose the `W` low-order bits of
the little-endian decomposition; the result is the `W`-bit pattern as a
natural number. -/
def castLossyScalarToInteger (W : Nat) (mode : Mode) (v : Nat) : Nat :=
  fromBitsLe ((scalarToBitsLe v).take W)

/-- Modelled from the spec: the value denoted by a `W`-bit pattern under a
signed (two's-complement) integer target. -/
def twosComplement (W : Nat) (pattern : Nat) : Int :=
  if pattern < 2 ^ (W - 1) then (pattern : Int) else (pattern : Int) - 2 ^ W

/-- The signed reading of `CastLossy<Integer<W>> for Scalar`: the retained
`W`-bit pattern interpreted in two's complement. -/
def castLossyScalarToSigned (W : Nat) (mode : Mode) (v : Nat) : Int :=
  twosComplement W (castLossyScalarToInteger W mode v)

/-- Modelled from the spec: the exact cast `Scalar -> Field` embeds the
scalar by recomposing its full canonical bit decomposition in the base
field (lossless, as the scalar-field order does not exceed the base-field
order). -/
def castScalarToField (mode : Mode) (v : Nat) : Nat :=
  fromBitsLe (scalarToBitsLe v)

/-- Modelled from the spec: a group element reached from a scalar, kept as
the formal multiple of the group generator by that scalar. -/
structure GroupEl where
  mulOfGen : Nat
deriving DecidableEq

/-- Modelled from the spec: an address, the affine-point encoding of a
group element. -/
structure AddressEl where
  point : GroupEl
deriving DecidableEq

/-- Modelled from the spec: the exact cast `Scalar -> Group` maps the
scalar canonically onto the group-element representation. -/
def castScalarToGroup (mode : Mode) (v : Nat) : GroupEl :=
  ⟨v % scalarModulus⟩

/-- Modelled from the spec: the exact cast `Scalar -> Address` encodes the
group element obtained from the scalar. -/
def castScalarToAddress (mode : Mode) (v : Nat) : AddressEl :=
  ⟨castScalarToGroup mode v⟩

/-- Modelled from the spec: the exact cast `Scalar -> Scalar` performs no
conversion. -/
def castScalarToScalar (mode : Mode) (v : Nat) : Nat := v

/-- `CastLossy<Field> for Scalar`: delegates to the exact cast. -/
def castLossyScalarToField (mode : Mode) (v : Nat) : Nat :=
  castScalarToField mode v

/-- `CastLossy<Group> for Scalar`: delegates to the exact cast. -/
def castLossyScalarToGroup (mode : Mode) (v : Nat) : GroupEl :=
  castScalarToGroup mode v

/-- `CastLossy<Address> for Scalar`: delegates to the exact cast. -/
def castLossyScalarToAddress (mode : Mode) (v : Nat) : AddressEl :=
  castScalarToAddress mode v

/-- `CastLossy<Scalar> for Scalar`: delegates to the exact cast. -/
def castLossyScalarToScalar (mode : Mode) (v : Nat) : Nat :=
  castScalarToScalar mode v

/-- Modelled from the spec: constraints emitted by bit decomposition — zero
in Constant mode; otherwise one boolean-allocation constraint per produced
bit plus a single linear constraint tying the bits to the value. -/
def decomposeConstraintCount (mode : Mode) (bits : List Bool) : Nat :=
  match mode with
  | Mode.Constant => 0
  | _ => bits.foldl (fun acc _ => acc + 1) 0 + 1

/-- Modelled from the spec: constraints emitted by recomposition — zero for
all-constant operands, otherwise one linear weighted-sum constraint over
the retained bits. -/
def recomposeConstraintCount (mode : Mode) (bits : List Bool) : Nat :=
  match mode with
  | Mode.Constant => 0
  | _ => 1

/-- Constraints emitted by the lossy cast `Scalar -> Integer<W>`:
decomposition of the scalar followed by recomposition of the retained
low-order bits. -/
def scalarToIntegerConstraintCount (W : Nat) (mode : Mode) (v : Nat) : Nat :=
  decomposeConstraintCount mode (scalarToBitsLe v) +
    recomposeConstraintCount mode ((scalarToBitsLe v).take W)

/-- Constraints emitted by the lossy cast `Scalar -> Boolean`:
decomposition of the scalar (the popped bit itself adds nothing). -/
def scalarToBooleanConstraintCount (mode : Mode) (v : Nat) : Nat :=
  decomposeConstraintCount mode (scalarToBitsBe v)

/-- Modelled from the spec: the Mode Cost Rule for a Reinterpret-strategy
cast — zero constraints when every operand is Constant, otherwise a fixed
witness-size-dependent count that never depends on the operand value. -/
def reinterpretConstraintCount (witnessCost : Nat) (mode : Mode) (v : Nat) : Nat :=
  match mode with
  | Mode.Constant => 0
  | _ => witnessCost

/-- Constraints emitted by the lossy cast `Scalar -> Field`: the exact
cast re-uses the operand's representation, and the counts recorded in
`scalar.rs` are zero in every mode. -/
def scalarToFieldConstraintCount (mode : Mode) (v : Nat) : Nat :=
  reinterpretConstraintCount 0 mode v

/-- Constraints emitted by the lossy cast `Scalar -> Group`: the fixed
witness cost of the exact cast, 13 per the counts recorded in
`scalar.rs`, and zero in Constant mode. -/
def scalarToGroupConstraintCount (mode : Mode) (v : Nat) : Nat :=
  reinterpretConstraintCount 13 mode v

/-- Constraints emitted by the lossy cast `Scalar -> Address`: the fixed
witness cost of the exact cast, 13 per the counts recorded in
`scalar.rs`, and zero in Constant mode. -/
def scalarToAddressConstraintCount (mode : Mode) (v : Nat) : Nat :=
  reinterpretConstraintCount 13 mode v

/-- Constraints emitted by the lossy cast `Scalar -> Scalar`: the
Identity strategy performs no conversion and emits no constraints in any
mode, per the counts recorded in `scalar.rs`. -/
def scalarToScalarConstraintCount (mode : Mode) (v : Nat) : Nat := 0

theorem toBitsLeN_length (n v : Nat) : (toBitsLeN n v).length = n := by
  induction n generalizing v with
  | zero => rfl
  | succ n ih => simp [toBitsLeN, ih]

theorem toBitsLeN_take (W n v : Nat) (h : W ≤ n) :
    (toBitsLeN n v).take W = toBitsLeN W v := by
  induction W generalizing n v with
  | zero => simp [toBitsLeN]
  | succ W ih =>
    cases n with
    | zero => omega
    | succ n =>
      simp only [toBitsLeN, List.take_succ_cons]
      rw [ih n (v / 2) (by omega)]

theorem mod_two_pow_succ_eq (n v : Nat) :
    v % 2 ^ (n + 1) = v % 2 + 2 * (v / 2 % 2 ^ n) := by
  have hpow : 0 < 2 ^ n := pow_pos (by omega) n
  have hq : v / 2 % 2 ^ n < 2 ^ n := Nat.mod_lt _ hpow
  have hr : v % 2 < 2 := Nat.mod_lt _ (by omega)
  have hdecomp : 2 * (v / 2) + v % 2 = v := Nat.div_add_mod v 2
  have hmul : 2 * (v / 2) % (2 * 2 ^ n) = 2 * (v / 2 % 2 ^ n) :=
    Nat.mul_mod_mul_left 2 (v / 2) (2 ^ n)
  have hsplit : v % (2 * 2 ^ n)
      = (2 * (v / 2) % (2 * 2 ^ n) + v % 2 % (2 * 2 ^ n)) % (2 * 2 ^ n) := by
    conv_lhs => rw [← hdecomp]
    exact Nat.add_mod _ _ _
  have hrsmall : v % 2 % (2 * 2 ^ n) = v % 2 := Nat.mod_eq_of_lt (by omega)
  have hfits : (2 * (v / 2 % 2 ^ n) + v % 2) % (2 * 2 ^ n)
      = 2 * (v / 2 % 2 ^ n) + v % 2 := Nat.mod_eq_of_lt (by omega)
  calc v % 2 ^ (n + 1) = v % (2 * 2 ^ n) := by rw [pow_succ']
    _ = (2 * (v / 2 % 2 ^ n) + v % 2) % (2 * 2 ^ n) := by rw [hsplit, hmul, hrsmall]
    _ = 2 * (v / 2 % 2 ^ n) + v % 2 := hfits
    _ = v % 2 + 2 * (v / 2 % 2 ^ n) := by omega

theorem fromBitsLe_toBitsLeN (n v : Nat) :
    fromBitsLe (toBitsLeN n v) = v % 2 ^ n := by
  induction n generalizing v with
  | zero => simp [toBitsLeN, fromBitsLe, Nat.mod_one]
  | succ n ih =>
    have hmod : v % 2 = 0 ∨ v % 2 = 1 := Nat.mod_two_eq_zero_or_one v
    rw [mod_two_pow_succ_eq n v]
    rcases hmod with h0 | h1
    · simp [toBitsLeN, fromBitsLe, h0, ih]
    · simp [toBitsLeN, fromBitsLe, h1, ih]

theorem castLossyScalarToInteger_eq_mod (W : Nat) (mode : Mode) (v : Nat)
    (h : W ≤ 251) : castLossyScalarToInteger W mode v = v % 2 ^ W := by
  unfold castLossyScalarToInteger scalarToBitsLe
  rw [toBitsLeN_take W scalarSizeInBits v h, fromBitsLe_toBitsLeN]

theorem castLossyScalarToBoolean_eq_lsb (mode : Mode) (v : Nat) :
    castLossyScalarToBoolean mode v = HaltOr.ok (v % 2 == 1) := by
  unfold castLossyScalarToBoolean booleanFromPoppedBit scalarToBitsBe scalarToBitsLe
  rw [List.getLast?_reverse]
  rfl

/-- C1 counterexample: at scalar value 1, the first element of the
big-endian representation (the most significant bit) is `false`, yet the
lossy cast to Boolean returns `true` — so the cast does not return the
most significant bit. -/
theorem c1_counterexample :
    (scalarToBitsBe 1).head? = some false ∧
      castLossyScalarToBoolean Mode.Private 1 = HaltOr.ok true := by
  decide

/-- C1 (amended): for every scalar value and every mode, casting lossily
to Boolean returns the LEAST significant bit of the value's canonical
representation (the last element of the big-endian bit vector, popped by
`Vec::pop`), i.e. the parity of the value; it is not an is-nonzero
predicate and not the most significant bit. -/
theorem c1_boolean_cast_is_lsb (mode : Mode) (v : Nat)
    (h : v < scalarModulus) :
    castLossyScalarToBoolean mode v = HaltOr.ok (v % 2 == 1) :=
  castLossyScalarToBoolean_eq_lsb mode v

/-- Witness for C1 at the concrete scalar value 1 in Public mode. -/
theorem c1_boolean_cast_is_lsb_witness :
    1 < scalarModulus ∧
      castLossyScalarToBoolean Mode.Public 1 = HaltOr.ok (1 % 2 == 1) :=
  ⟨by decide, c1_boolean_cast_is_lsb Mode.Public 1 (by decide)⟩

/-- C2: for every scalar value v and every integer width W in
{8, 16, 32, 64, 128}, the lossy cast to the W-bit integer yields the
recomposition of the W low-order bits of v, which equals `v mod 2 ^ W`. -/
theorem c2_reduction_law (W : Nat) (mode : Mode) (v : Nat)
    (hv : v < scalarModulus) (hW : W ∈ [8, 16, 32, 64, 128]) :
    castLossyScalarToInteger W mode v = v % 2 ^ W := by
  have hW' : W ≤ 251 := by
    simp only [List.mem_cons, List.not_mem_nil, or_false] at hW
    omega
  exact castLossyScalarToInteger_eq_mod W mode v hW'

/-- Witness for C2 at scalar value 5, width 8, Private mode. -/
theorem c2_reduction_law_witness :
    5 < scalarModulus ∧ 8 ∈ [8, 16, 32, 64, 128] ∧
      castLossyScalarToInteger 8 Mode.Private 5 = 5 % 2 ^ 8 :=
  ⟨by decide, by decide, c2_reduction_law 8 Mode.Private 5 (by decide) (by decide)⟩

/-- C3 counterexample: casting the scalar multiplicative identity 1 to
Boolean returns `true` (its least significant bit), not `false` as the
claim states. -/
theorem c3_counterexample :
    castLossyScalarToBoolean Mode.Constant 1 = HaltOr.ok true ∧
      castLossyScalarToBoolean Mode.Constant 1 ≠ HaltOr.ok false := by
  decide

/-- C3 (amended): casting the scalar multiplicative identity 1 lossily to
Boolean returns `true` in each of the three modes, because the cast pops
the least significant bit and the LSB of 1 is 1. -/
theorem c3_one_to_boolean_is_true :
    castLossyScalarToBoolean Mode.Constant 1 = HaltOr.ok true ∧
      castLossyScalarToBoolean Mode.Public 1 = HaltOr.ok true ∧
      castLossyScalarToBoolean Mode.Private 1 = HaltOr.ok true :=
  ⟨castLossyScalarToBoolean_eq_lsb Mode.Constant 1,
    castLossyScalarToBoolean_eq_lsb Mode.Public 1,
    castLossyScalarToBoolean_eq_lsb Mode.Private 1⟩

/-- C5: for every scalar value and every mode, the lossy cast from Scalar
to Scalar returns the value unchanged (identity law). -/
theorem c5_identity_law (mode : Mode) (v : Nat) (h : v < scalarModulus) :
    castLossyScalarToScalar mode v = v := rfl

/-- Witness for C5 at scalar value 42 in Constant mode. -/
theorem c5_identity_law_witness :
    42 < scalarModulus ∧ castLossyScalarToScalar Mode.Constant 42 = 42 :=
  ⟨by decide, c5_identity_law Mode.Constant 42 (by decide)⟩

/-- C6: when the bit sequence cannot supply the expected element (it is
empty), the cast invokes the unconditional halt primitive with its
diagnostic message — never a recoverable error value; and apart from that
fatal path, the lossy cast to Boolean always returns a value (the
decomposition of a scalar is never empty). -/
theorem c6_halt_semantics :
    booleanFromPoppedBit [] =
        HaltOr.halt "Failed to retrieve the LSB from the field element." ∧
      ∀ (mode : Mode) (v : Nat), ∃ b : Bool,
        castLossyScalarToBoolean mode v = HaltOr.ok b :=
  ⟨rfl, fun mode v => ⟨v % 2 == 1, castLossyScalarToBoolean_eq_lsb mode v⟩⟩

/-- C8: casting the scalar additive identity 0 lossily to an 8-bit
unsigned integer returns 0 in each of the three modes. -/
theorem c8_zero_to_u8 :
    castLossyScalarToInteger 8 Mode.Constant 0 = 0 ∧
      castLossyScalarToInteger 8 Mode.Public 0 = 0 ∧
      castLossyScalarToInteger 8 Mode.Private 0 = 0 := by
  refine ⟨?_, ?_, ?_⟩ <;> rfl

theorem foldl_succ_eq_length (l : List Bool) (a : Nat) :
    l.foldl (fun acc _ => acc + 1) a = a + l.length := by
  induction l generalizing a with
  | nil => simp
  | cons b bs ih =>
    rw [List.foldl_cons, ih, List.length_cons]
    omega

theorem decomposeConstraintCount_public (bits : List Bool) :
    decomposeConstraintCount Mode.Public bits = bits.length + 1 := by
  show bits.foldl (fun acc _ => acc + 1) 0 + 1 = bits.length + 1
  rw [foldl_succ_eq_length]
  omega

theorem decomposeConstraintCount_private (bits : List Bool) :
    decomposeConstraintCount Mode.Private bits = bits.length + 1 := by
  show bits.foldl (fun acc _ => acc + 1) 0 + 1 = bits.length + 1
  rw [foldl_succ_eq_length]
  omega

theorem scalarToBitsLe_length (v : Nat) : (scalarToBitsLe v).length = 251 :=
  toBitsLeN_length 251 v

theorem scalarToBitsBe_length (v : Nat) : (scalarToBitsBe v).length = 251 := by
  show (scalarToBitsLe v).reverse.length = 251
  rw [List.length_reverse]
  exact scalarToBitsLe_length v

theorem scalarToIntegerConstraintCount_eq (W : Nat) (mode : Mode) (v : Nat) :
    scalarToIntegerConstraintCount W mode v =
      match mode with
      | Mode.Constant => 0
      | _ => 253 := by
  cases mode with
  | Constant => rfl
  | Public =>
    show decomposeConstraintCount Mode.Public (scalarToBitsLe v) +
        recomposeConstraintCount Mode.Public ((scalarToBitsLe v).take W) = 253
    rw [decomposeConstraintCount_public, scalarToBitsLe_length]
    rfl
  | Private =>
    show decomposeConstraintCount Mode.Private (scalarToBitsLe v) +
        recomposeConstraintCount Mode.Private ((scalarToBitsLe v).take W) = 253
    rw [decomposeConstraintCount_private, scalarToBitsLe_length]
    rfl

theorem scalarToBooleanConstraintCount_eq (mode : Mode) (v : Nat) :
    scalarToBooleanConstraintCount mode v =
      match mode with
      | Mode.Constant => 0
      | _ => 252 := by
  cases mode with
  | Constant => rfl
  | Public =>
    show decomposeConstraintCount Mode.Public (scalarToBitsBe v) = 252
    rw [decomposeConstraintCount_public, scalarToBitsBe_length]
  | Private =>
    show decomposeConstraintCount Mode.Private (scalarToBitsBe v) = 252
    rw [decomposeConstraintCount_private, scalarToBitsBe_length]

/-- C4: for every ordered (Source, Target) pair with Scalar source —
Integer of any width, Boolean, Field, Group, Address, Scalar — the number
of constraints emitted by the lossy cast depends only on the target and
the operand mode, never on the operand value: two casts of any two values
of equal mode emit equally many constraints, and a cast of a
Constant-mode operand emits zero constraints. -/
theorem c4_mode_cost_independence (W : Nat) (mode : Mode) (v1 v2 : Nat) :
    (scalarToIntegerConstraintCount W mode v1 =
          scalarToIntegerConstraintCount W mode v2 ∧
        scalarToBooleanConstraintCount mode v1 =
          scalarToBooleanConstraintCount mode v2 ∧
        scalarToFieldConstraintCount mode v1 =
          scalarToFieldConstraintCount mode v2 ∧
        scalarToGroupConstraintCount mode v1 =
          scalarToGroupConstraintCount mode v2 ∧
        scalarToAddressConstraintCount mode v1 =
          scalarToAddressConstraintCount mode v2 ∧
        scalarToScalarConstraintCount mode v1 =
          scalarToScalarConstraintCount mode v2) ∧
      scalarToIntegerConstraintCount W Mode.Constant v1 = 0 ∧
      scalarToBooleanConstraintCount Mode.Constant v1 = 0 ∧
      scalarToFieldConstraintCount Mode.Constant v1 = 0 ∧
      scalarToGroupConstraintCount Mode.Constant v1 = 0 ∧
      scalarToAddressConstraintCount Mode.Constant v1 = 0 ∧
      scalarToScalarConstraintCount Mode.Constant v1 = 0 := by
  refine ⟨⟨?_, ?_, rfl, rfl, rfl, rfl⟩, ?_, ?_, rfl, rfl, rfl, rfl⟩
  · rw [scalarToIntegerConstraintCount_eq, scalarToIntegerConstraintCount_eq]
  · rw [scalarToBooleanConstraintCount_eq, scalarToBooleanConstraintCount_eq]
  · rw [scalarToIntegerConstraintCount_eq]
  · rw [scalarToBooleanConstraintCount_eq]

/-- C7: the lossy casts from Scalar to Field, Group and Address each
return exactly the result of the corresponding exact cast, the
scalar-field order does not exceed the base-field order, and the
Scalar-to-Field embedding maps every scalar to itself (so it loses no
information). -/
theorem c7_reinterpret_delegation (mode : Mode) (v : Nat)
    (h : v < scalarModulus) :
    castLossyScalarToField mode v = castScalarToField mode v ∧
      castLossyScalarToGroup mode v = castScalarToGroup mode v ∧
      castLossyScalarToAddress mode v = castScalarToAddress mode v ∧
      scalarModulus ≤ fieldModulus ∧
      castScalarToField mode v = v := by
  have hle : scalarModulus ≤ 2 ^ 251 := by decide
  refine ⟨rfl, rfl, rfl, by decide, ?_⟩
  have h1 : castScalarToField mode v = v % 2 ^ 251 := by
    unfold castScalarToField scalarToBitsLe scalarSizeInBits
    exact fromBitsLe_toBitsLeN 251 v
  rw [h1]
  exact Nat.mod_eq_of_lt (by omega)

/-- Witness for C7 at scalar value 7 in Constant mode. -/
theorem c7_reinterpret_delegation_witness :
    7 < scalarModulus ∧
      (castLossyScalarToField Mode.Constant 7 = castScalarToField Mode.Constant 7 ∧
        castLossyScalarToGroup Mode.Constant 7 = castScalarToGroup Mode.Constant 7 ∧
        castLossyScalarToAddress Mode.Constant 7 = castScalarToAddress Mode.Constant 7 ∧
        scalarModulus ≤ fieldModulus ∧
        castScalarToField Mode.Constant 7 = 7) :=
  ⟨by decide, c7_reinterpret_delegation Mode.Constant 7 (by decide)⟩

/-- C9: for any two widths W1 ≤ W2 among {8, 16, 32, 64, 128}, the lossy
cast of a scalar to a W1-bit integer equals the W1 low-order bits of its
lossy cast to a W2-bit integer — both are prefixes of the same
little-endian decomposition. -/
theorem c9_width_consistency (mode : Mode) (v W1 W2 : Nat)
    (hv : v < scalarModulus) (h1 : W1 ∈ [8, 16, 32, 64, 128])
    (h2 : W2 ∈ [8, 16, 32, 64, 128]) (h12 : W1 ≤ W2) :
    castLossyScalarToInteger W1 mode v =
      castLossyScalarToInteger W2 mode v % 2 ^ W1 := by
  have hb1 : W1 ≤ 251 := by
    simp only [List.mem_cons, List.not_mem_nil, or_false] at h1
    omega
  have hb2 : W2 ≤ 251 := by
    simp only [List.mem_cons, List.not_mem_nil, or_false] at h2
    omega
  rw [castLossyScalarToInteger_eq_mod W1 mode v hb1,
    castLossyScalarToInteger_eq_mod W2 mode v hb2,
    Nat.mod_mod_of_dvd v (pow_dvd_pow 2 h12)]

/-- Witness for C9 at scalar value 1000, widths 8 and 16, Public mode. -/
theorem c9_width_consistency_witness :
    1000 < scalarModulus ∧ 8 ∈ [8, 16, 32, 64, 128] ∧
      16 ∈ [8, 16, 32, 64, 128] ∧ 8 ≤ 16 ∧
      castLossyScalarToInteger 8 Mode.Public 1000 =
        castLossyScalarToInteger 16 Mode.Public 1000 % 2 ^ 8 :=
  ⟨by decide, by decide, by decide, by decide,
    c9_width_consistency Mode.Public 1000 8 16 (by decide) (by decide)
      (by decide) (by decide)⟩

/-- C10: for a signed W-bit target, the lossy cast interprets the retained
W low-order bits of the scalar in two's complement: the result lies in
the interval [-2^(W-1), 2^(W-1)), is congruent to v modulo 2^W, and is
negative whenever bit W-1 of v is set. -/
theorem c10_signed_interpretation (W : Nat) (mode : Mode) (v : Nat)
    (hv : v < scalarModulus) (hW : W ∈ [8, 16, 32, 64, 128]) :
    -(2 ^ (W - 1) : Int) ≤ castLossyScalarToSigned W mode v ∧
      castLossyScalarToSigned W mode v < 2 ^ (W - 1) ∧
      (2 ^ W : Int) ∣ (v : Int) - castLossyScalarToSigned W mode v ∧
      (v.testBit (W - 1) = true → castLossyScalarToSigned W mode v < 0) := by
  have hWb : 1 ≤ W ∧ W ≤ 251 := by
    simp only [List.mem_cons, List.not_mem_nil, or_false] at hW
    omega
  have hp : castLossyScalarToInteger W mode v = v % 2 ^ W :=
    castLossyScalarToInteger_eq_mod W mode v hWb.2
  have hplt : v % 2 ^ W < 2 ^ W := Nat.mod_lt _ (pow_pos (by omega) W)
  have hWI : (2 : Int) ^ W = 2 ^ (W - 1) * 2 := by
    have h1 : W - 1 + 1 = W := by omega
    conv_lhs => rw [← h1]
    rw [pow_succ]
  have hdvdp : (2 ^ W : Int) ∣ (v : Int) - ((v % 2 ^ W : Nat) : Int) := by
    rw [Int.natCast_mod]
    push_cast
    refine ⟨(v : Int) / 2 ^ W, ?_⟩
    have h := Int.ediv_add_emod (v : Int) ((2 : Int) ^ W)
    linarith
  have hpltI : ((v % 2 ^ W : Nat) : Int) < 2 ^ W := by exact_mod_cast hplt
  have hpnn : (0 : Int) ≤ ((v % 2 ^ W : Nat) : Int) := Int.natCast_nonneg _
  have hhalfnn : (0 : Int) ≤ 2 ^ (W - 1) := by positivity
  unfold castLossyScalarToSigned
  rw [hp]
  unfold twosComplement
  by_cases hcase : v % 2 ^ W < 2 ^ (W - 1)
  · have hcaseI : ((v % 2 ^ W : Nat) : Int) < 2 ^ (W - 1) := by exact_mod_cast hcase
    rw [if_pos hcase]
    refine ⟨by linarith, hcaseI, hdvdp, ?_⟩
    intro htb
    exfalso
    have h1 : (v % 2 ^ W).testBit (W - 1) = true := by
      have hlt : W - 1 < W := by omega
      simp [Nat.testBit_mod_two_pow, htb, hlt]
    have h2 : 2 ^ (W - 1) ≤ v % 2 ^ W := Nat.testBit_implies_ge h1
    exact absurd h2 (not_le.mpr hcase)
  · have hge : 2 ^ (W - 1) ≤ v % 2 ^ W := not_lt.mp hcase
    have hgeI : (2 : Int) ^ (W - 1) ≤ ((v % 2 ^ W : Nat) : Int) := by
      exact_mod_cast hge
    rw [if_neg hcase]
    refine ⟨by linarith, by linarith, ?_, fun _ => by linarith⟩
    have heq : (v : Int) - (((v % 2 ^ W : Nat) : Int) - 2 ^ W)
        = ((v : Int) - ((v % 2 ^ W : Nat) : Int)) + 2 ^ W := by ring
    rw [heq]
    exact dvd_add hdvdp (dvd_refl _)

/-- Witness for C10 at scalar value 200 (bit 7 set), width 8, Private
mode. -/
theorem c10_signed_interpretation_witness :
    200 < scalarModulus ∧ 8 ∈ [8, 16, 32, 64, 128] ∧
      (-(2 ^ (8 - 1) : Int) ≤ castLossyScalarToSigned 8 Mode.Private 200 ∧
        castLossyScalarToSigned 8 Mode.Private 200 < 2 ^ (8 - 1) ∧
        (2 ^ 8 : Int) ∣ ((200 : Nat) : Int) - castLossyScalarToSigned 8 Mode.Private 200 ∧
        (Nat.testBit 200 (8 - 1) = true → castLossyScalarToSigned 8 Mode.Private 200 < 0)) :=
  ⟨by decide, by decide, c10_signed_interpretation 8 Mode.Private 200 (by decide) (by decide)⟩
